import Mathlib

/-!
Verification development for the `twtools` repository
(`send_spy_nearby_players/send_spy_nearby_players_streamlit.py`).

The Python script is a sequential pipeline: a config loader (`load_config`),
a fetch/rank step (`fetch_and_prepare_data`) that downloads the village
census, filters out barbarian villages, keeps each player's closest village,
sorts by distance and overwrites a CSV store, and an open-batch step
(`open_next_unopened`) that opens the first `NUM_TO_OPEN` unopened rows in a
browser and persists the updated flags.

Modelling conventions (shallow embedding):
* The HTTP client, gzip decompression, percent-decoding of names, the CSV
  quoting mechanics, the Streamlit UI and the browser are external
  collaborators (spec §1, §6); they enter the model as explicit inputs
  (HTTP status, decoded feed rows, a success predicate for the browser
  open action) and the store is threaded as an explicit value.
* The Python code computes `distance = sqrt((x-x0)^2 + (y-y0)^2)` as a
  float and only ever compares, minimises or sorts by it.  Since `sqrt` is
  strictly monotone on nonnegative reals, we model the squared distance
  exactly (`dist2 : Int`); every ordering statement of the spec transfers
  verbatim.
* `pandas.DataFrame.sort_values` is a comparison sort by the distance
  column; we embed it as `List.insertionSort`, which produces a sorted
  permutation exactly as the source does (the Python sort is not stable,
  so no claim depends on the order among equal keys).
* `pandas` `groupby('player')` enumerates groups by ascending key and
  `idxmin` picks the first row attaining the group minimum, in row order;
  `argminD` below embeds that selection.
-/

/-- ASCII whitespace stripped by Python's `str.strip()` (the config and feed
files are ASCII; the further Unicode spaces Python strips never occur). -/
def isSpaceChar (c : Char) : Bool :=
  c == ' ' || c == '\t' || c == '\n' || c == '\r'

/-- Python `str.strip()`: drop whitespace from both ends. -/
def stripChars (cs : List Char) : List Char :=
  ((cs.dropWhile isSpaceChar).reverse.dropWhile isSpaceChar).reverse

/-- Split a character list at the first occurrence of `sep`
(Python `s.split(sep, 1)` when `sep in s`); `none` when `sep` is absent. -/
def splitFirst (sep : Char) : List Char → Option (List Char × List Char)
  | [] => none
  | c :: cs =>
    if c = sep then some ([], cs)
    else (splitFirst sep cs).map (fun p => (c :: p.1, p.2))

/-- Decimal digit test, as in Python `str.isdigit()` on ASCII text. -/
def isDigitChar (c : Char) : Bool :=
  48 ≤ c.toNat && c.toNat ≤ 57

/-- Python `value.isdigit()`: nonempty and all decimal digits. -/
def isdigit (cs : List Char) : Bool :=
  !cs.isEmpty && cs.all isDigitChar

/-- Python `value.replace(".", "", 1)`: remove the first `'.'` if any. -/
def removeFirstDot (cs : List Char) : List Char :=
  match splitFirst '.' cs with
  | none => cs
  | some p => p.1 ++ p.2

/-- Numeric value of a decimal digit string (Python `int(value)` on an
all-digit string). -/
def digitsToNat (cs : List Char) : Nat :=
  cs.foldl (fun a c => 10 * a + (c.toNat - 48)) 0

/-- The character of a decimal digit. -/
def digitCharOf (d : Nat) : Char :=
  Char.ofNat (48 + d)

/-- Big-endian decimal digits of `n` (`str(n)` for positive `n`), with
explicit fuel so that the definition is structural and kernel-evaluable. -/
def natCharsAux : Nat → Nat → List Char
  | 0, _ => []
  | fuel + 1, n =>
    if n = 0 then []
    else natCharsAux fuel (n / 10) ++ [digitCharOf (n % 10)]

/-- Python `str(n)` for a nonnegative integer, as a character list. -/
def natChars (n : Nat) : List Char :=
  if n = 0 then ['0'] else natCharsAux n n

/-- Python `str(n)` for a nonnegative integer. -/
def natToString (n : Nat) : String :=
  ⟨natChars n⟩

/-- Python `str(i)` for an `int`, as a character list. -/
def intChars (i : Int) : List Char :=
  if i < 0 then '-' :: natChars i.natAbs else natChars i.natAbs

/-- Python `str(i)` for an `int`. -/
def intToString (i : Int) : String :=
  ⟨intChars i⟩

/-- Parse an all-digit decimal string back to a number (the typed read-back
of an integer CSV cell). -/
def parseNatChars (cs : List Char) : Option Nat :=
  if isdigit cs then some (digitsToNat cs) else none

/-- Parse an optionally `'-'`-signed decimal string back to an integer. -/
def parseIntChars (cs : List Char) : Option Int :=
  if cs.head? = some '-' then (parseNatChars cs.tail).map (fun m => -(m : Int))
  else (parseNatChars cs).map (fun m => (m : Int))

/-! ### Config loader (`load_config`) -/

/-- A typed config value: Python stores `int(value)`, `float(value)` or the
raw string.  The float branch is only taken for decimal literals made of
digits and one optional dot, so its exact value is the rational
`digits / 10 ^ fractionLength`; IEEE rounding of that exact value is the
out-of-scope final step. -/
inductive ConfigValue where
  | intVal (n : Nat)
  | floatVal (q : ℚ)
  | strVal (s : String)
deriving DecidableEq

/-- Exact value of a decimal literal accepted by the float branch
(one optional dot, digits elsewhere). -/
def floatValOf (cs : List Char) : ℚ :=
  match splitFirst '.' cs with
  | none => (digitsToNat cs : ℚ)
  | some p => (digitsToNat p.1 : ℚ) + (digitsToNat p.2 : ℚ) / 10 ^ p.2.length

/-- Coercion of a stripped config value, as in `load_config`:
`int` if all digits, else `float` if all digits after deleting one dot,
else the raw string. -/
def coerceValue (cs : List Char) : ConfigValue :=
  if isdigit cs then .intVal (digitsToNat cs)
  else if isdigit (removeFirstDot cs) then .floatVal (floatValOf cs)
  else .strVal ⟨cs⟩

/-- One line of `load_config`: strip; skip if empty, a `#` comment, or
without `=`; otherwise split on the first `=`, strip key and value, and
coerce the value. -/
def parseLine (s : String) : Option (String × ConfigValue) :=
  let line := stripChars s.data
  if line.isEmpty then none
  else if line.head? = some '#' then none
  else
    match splitFirst '=' line with
    | none => none
    | some p => some (⟨stripChars p.1⟩, coerceValue (stripChars p.2))

/-- `load_config`: fold the lines into a dict; a parsed line overwrites the
current binding of its key (`config[key] = value`). -/
def load_config (lines : List String) : String → Option ConfigValue :=
  lines.foldl
    (fun m line =>
      match parseLine line with
      | some kv => fun q => if q = kv.1 then some kv.2 else m q
      | none => m)
    (fun _ => none)

/-! ### Data model -/

/-- A raw census row (`village.txt.gz`, columns
`id,name,x,y,player,points,rank`), after the external gzip/CSV/percent
decoding.  Coordinates are Python ints (pandas int64), hence `Int`. -/
structure VillageRecord where
  id : Nat
  name : String
  x : Int
  y : Int
  player : Nat
  points : Nat
  rank : Nat
deriving DecidableEq

/-- A persisted row of the store (`urls.csv`): the census columns plus the
distance, the derived target URL and the `opened` flag.  `dist2` is the
exact squared Euclidean distance (see the header comment). -/
structure RankedTarget where
  id : Nat
  name : String
  x : Int
  y : Int
  player : Nat
  points : Nat
  rank : Nat
  dist2 : Int
  url_to_open : String
  opened : Bool
deriving DecidableEq

/-- Squared Euclidean distance from the home coordinate
(`(x - x_own)**2 + (y - y_own)**2`; the code takes its square root only to
compare and sort, which the square ranks identically). -/
def distance2 (xOwn yOwn : Int) (r : VillageRecord) : Int :=
  (r.x - xOwn) ^ 2 + (r.y - yOwn) ^ 2

/-- `get_village_url`: the census feed URL of a world. -/
def get_village_url (world : Nat) (country countryUrl : String) : String :=
  "https://" ++ country ++ natToString world ++ "." ++ countryUrl
    ++ "/map/village.txt.gz"

/-- The per-row target URL
(`game.php?screen=place&x={x}&y={y}&spy=5` on the world host). -/
def targetUrl (country countryUrl : String) (world : Nat) (x y : Int) : String :=
  "https://" ++ country ++ natToString world ++ "." ++ countryUrl
    ++ "/game.php?screen=place&x=" ++ intToString x ++ "&y=" ++ intToString y
    ++ "&spy=5"

/-- Steps 6–7 of `fetch_and_prepare_data` on one selected record: keep the
census columns, attach the distance, the target URL and `opened = False`. -/
def mkTarget (country countryUrl : String) (world : Nat) (xOwn yOwn : Int)
    (r : VillageRecord) : RankedTarget :=
  { id := r.id, name := r.name, x := r.x, y := r.y, player := r.player,
    points := r.points, rank := r.rank,
    dist2 := distance2 xOwn yOwn r,
    url_to_open := targetUrl country countryUrl world r.x r.y,
    opened := false }

/-- First row of `l` attaining the minimum of `f`, i.e. pandas
`Series.idxmin` restricted to the rows of one group: ties resolve to the
earliest row in iteration order. -/
def argminD (f : VillageRecord → Int) : List VillageRecord → Option VillageRecord
  | [] => none
  | r :: rs =>
    match argminD f rs with
    | none => some r
    | some m => if f r ≤ f m then some r else some m

/-- Step 4 of `fetch_and_prepare_data`:
`df.loc[df.groupby('player')['distance'].idxmin()]` — for each distinct
player (groupby enumerates keys ascending) take the first minimum-distance
row of that player. -/
def selectClosest (xOwn yOwn : Int) (owned : List VillageRecord) :
    List VillageRecord :=
  (List.insertionSort (· ≤ ·) ((owned.map (fun r => r.player)).dedup)).filterMap
    (fun p => argminD (distance2 xOwn yOwn)
      (owned.filter (fun r => decide (r.player = p))))

/-- Steps 2.5–7 of `fetch_and_prepare_data` as a pure transform of the
decoded feed: drop `player == 0`, keep each player's closest village, sort
ascending by distance, derive URL and `opened = False`. -/
def fetch_rank (country countryUrl : String) (world : Nat) (xOwn yOwn : Int)
    (feed : List VillageRecord) : List RankedTarget :=
  let owned := feed.filter (fun r => decide (r.player ≠ 0))
  let closest := selectClosest xOwn yOwn owned
  let sorted := List.insertionSort
    (fun a b => distance2 xOwn yOwn a ≤ distance2 xOwn yOwn b) closest
  sorted.map (mkTarget country countryUrl world xOwn yOwn)

/-- The fetch-path error (`raise Exception(f"Failed to download …")`,
carrying the HTTP status; spec `DownloadError{status}`). -/
inductive FetchError where
  | downloadError (status : Nat)
deriving DecidableEq

/-- `fetch_and_prepare_data`: a non-200 status raises before anything is
written, so the prior store is returned untouched; on 200 the ranked set is
computed and the store is overwritten wholesale (`to_csv`).  The HTTP
response and the decoded body are inputs (external collaborators), the
store is threaded explicitly. -/
def fetch_and_prepare_data (country countryUrl : String) (world : Nat)
    (xOwn yOwn : Int) (status : Nat) (feed : List VillageRecord)
    (store : Option (List RankedTarget)) :
    Except FetchError (List RankedTarget) × Option (List RankedTarget) :=
  if status ≠ 200 then (.error (.downloadError status), store)
  else
    let ranked := fetch_rank country countryUrl world xOwn yOwn feed
    (.ok ranked, some ranked)

/-! ### Store serialization (CSV cells)

`to_csv` / `read_csv` quoting mechanics are external (spec §1); what the
program owes the store is the typed text of each cell: decimal text for the
integer columns, `True`/`False` for `opened`, and the name/URL text
verbatim. -/

/-- Python `str(b)` for a bool, as written by `to_csv`. -/
def boolToCsv (b : Bool) : String :=
  if b then "True" else "False"

/-- Read back a bool cell as `read_csv` does. -/
def parseBoolStr (s : String) : Option Bool :=
  if s = "True" then some true
  else if s = "False" then some false
  else none

/-- Read back a nonnegative integer cell. -/
def parseNatStr (s : String) : Option Nat :=
  parseNatChars s.data

/-- Read back an integer cell. -/
def parseIntStr (s : String) : Option Int :=
  parseIntChars s.data

/-- The cells of one store row, in header order
`id,name,x,y,player,points,rank,distance,url_to_open,opened`. -/
def serializeRow (r : RankedTarget) : List String :=
  [natToString r.id, r.name, intToString r.x, intToString r.y,
   natToString r.player, natToString r.points, natToString r.rank,
   intToString r.dist2, r.url_to_open, boolToCsv r.opened]

/-- Typed read-back of one store row. -/
def parseRow (cells : List String) : Option RankedTarget :=
  match cells with
  | [c0, c1, c2, c3, c4, c5, c6, c7, c8, c9] => do
    let i ← parseNatStr c0
    let x ← parseIntStr c2
    let y ← parseIntStr c3
    let p ← parseNatStr c4
    let pts ← parseNatStr c5
    let rk ← parseNatStr c6
    let d2 ← parseIntStr c7
    let op ← parseBoolStr c9
    some { id := i, name := c1, x := x, y := y, player := p, points := pts,
           rank := rk, dist2 := d2, url_to_open := c8, opened := op }
  | _ => none

/-- Persist the full row set (`to_csv`): one cell row per target. -/
def persistStore (rows : List RankedTarget) : List (List String) :=
  rows.map serializeRow

/-- Load the store (`read_csv`): typed read-back of every row. -/
def loadStore : List (List String) → Option (List RankedTarget)
  | [] => some []
  | c :: cs => do
    let r ← parseRow c
    let rs ← loadStore cs
    some (r :: rs)

/-! ### Open-batch (`open_next_unopened`) -/

/-- Result of one `open_next_unopened` invocation: the missing-store error,
or the count of successful opens together with the URLs whose open action
failed (the code reports one error message per such URL). -/
inductive OpenOutcome where
  | storeNotFound
  | done (openedCount : Nat) (errors : List String)
deriving DecidableEq

/-- The loop of `open_next_unopened`: the slice
`df_unopened.index[:NUM_TO_OPEN]` walks the first `budget` unopened rows of
the full frame in persisted order; a successful open marks the row
`opened = True` and counts it, a failed open records the URL and leaves the
row unopened; already-opened rows and rows beyond the budget pass through
unchanged.  Returns (count, failed URLs, updated full row set). -/
def openBatch (ok : String → Bool) :
    Nat → List RankedTarget → Nat × List String × List RankedTarget
  | _, [] => (0, [], [])
  | 0, rows => (0, [], rows)
  | budget + 1, r :: rs =>
    if r.opened then
      let out := openBatch ok (budget + 1) rs
      (out.1, out.2.1, r :: out.2.2)
    else if ok r.url_to_open then
      let out := openBatch ok budget rs
      (out.1 + 1, out.2.1, { r with opened := true } :: out.2.2)
    else
      let out := openBatch ok budget rs
      (out.1, r.url_to_open :: out.2.1, r :: out.2.2)

/-- `open_next_unopened`: missing store → error; empty unopened subset →
early return, zero count, store untouched (the code returns before
`to_csv`); otherwise run the batch loop and persist the full updated row
set.  The browser (`webbrowser.open_new_tab`) is the external action,
modelled by its success predicate `ok` on the URL. -/
def open_next_unopened (numToOpen : Nat) (ok : String → Bool)
    (store : Option (List RankedTarget)) :
    OpenOutcome × Option (List RankedTarget) :=
  match store with
  | none => (.storeNotFound, none)
  | some rows =>
    let unopened := rows.filter (fun r => !r.opened)
    if unopened.isEmpty then (.done 0 [], some rows)
    else
      let out := openBatch ok numToOpen rows
      (.done out.1 out.2.1, some out.2.2)

/-- A row with its `opened` flag erased: the batch loop changes nothing
else. -/
def eraseOpened (r : RankedTarget) : RankedTarget :=
  { r with opened := false }

/-! ### Theorems -/

/-- Claim C4: a successful run of the fetch/rank step overwrites the store
wholesale with the newly ranked set, in which every row has
`opened = false`, regardless of the prior store contents (the prior store
argument does not occur in the result). -/
theorem c4_fetch_overwrites_store (country countryUrl : String) (world : Nat)
    (xOwn yOwn : Int) (feed : List VillageRecord)
    (store : Option (List RankedTarget)) :
    (fetch_and_prepare_data country countryUrl world xOwn yOwn 200 feed
        store).2 =
      some (fetch_rank country countryUrl world xOwn yOwn feed) ∧
    ∀ t ∈ fetch_rank country countryUrl world xOwn yOwn feed,
      t.opened = false := by
  constructor
  · simp [fetch_and_prepare_data]
  · intro t ht
    simp only [fetch_rank, List.mem_map] at ht
    obtain ⟨r, _, rfl⟩ := ht
    rfl

/-- Witness for C4 at a concrete feed, prior store and output row. -/
theorem c4_fetch_overwrites_store_witness :
    (fetch_and_prepare_data "de" "die-staemme.de" 1 0 0 200
        [⟨7, "v", 3, 4, 9, 100, 1⟩]
        (some [⟨7, "v", 3, 4, 9, 100, 1, 25, "u", true⟩])).2 =
      some (fetch_rank "de" "die-staemme.de" 1 0 0
        [⟨7, "v", 3, 4, 9, 100, 1⟩]) ∧
    (⟨7, "v", 3, 4, 9, 100, 1, 25,
        "https://de1.die-staemme.de/game.php?screen=place&x=3&y=4&spy=5",
        false⟩ : RankedTarget) ∈
      fetch_rank "de" "die-staemme.de" 1 0 0 [⟨7, "v", 3, 4, 9, 100, 1⟩] ∧
    RankedTarget.opened
      ⟨7, "v", 3, 4, 9, 100, 1, 25,
        "https://de1.die-staemme.de/game.php?screen=place&x=3&y=4&spy=5",
        false⟩ = false := by
  refine ⟨(c4_fetch_overwrites_store "de" "die-staemme.de" 1 0 0
    [⟨7, "v", 3, 4, 9, 100, 1⟩]
    (some [⟨7, "v", 3, 4, 9, 100, 1, 25, "u", true⟩])).1, by decide,
    (c4_fetch_overwrites_store "de" "die-staemme.de" 1 0 0
      [⟨7, "v", 3, 4, 9, 100, 1⟩]
      (some [⟨7, "v", 3, 4, 9, 100, 1, 25, "u", true⟩])).2 _ (by decide)⟩

/-- Claim C5: a non-200 HTTP status makes the fetch fail with a download
error carrying that status, and the prior store (present or not) is
returned unchanged — the exception is raised before any write. -/
theorem c5_download_error_leaves_store (country countryUrl : String)
    (world : Nat) (xOwn yOwn : Int) (status : Nat) (feed : List VillageRecord)
    (store : Option (List RankedTarget)) (h : status ≠ 200) :
    fetch_and_prepare_data country countryUrl world xOwn yOwn status feed
        store =
      (.error (.downloadError status), store) := by
  simp [fetch_and_prepare_data, h]

/-- Witness for C5 at HTTP status 404 with a nonempty prior store. -/
theorem c5_download_error_leaves_store_witness :
    (404 : Nat) ≠ 200 ∧
    fetch_and_prepare_data "de" "die-staemme.de" 1 0 0 404
        [⟨7, "v", 3, 4, 9, 100, 1⟩]
        (some [⟨7, "v", 3, 4, 9, 100, 1, 25, "u", true⟩]) =
      (.error (.downloadError 404),
       some [⟨7, "v", 3, 4, 9, 100, 1, 25, "u", true⟩]) :=
  ⟨by decide, c5_download_error_leaves_store "de" "die-staemme.de" 1 0 0 404
    [⟨7, "v", 3, 4, 9, 100, 1⟩]
    (some [⟨7, "v", 3, 4, 9, 100, 1, 25, "u", true⟩]) (by decide)⟩

/-- Claim C6: on a store whose unopened subset is empty, the open-batch
step returns a zero count and the untouched store, and doing it twice in
succession gives the same result both times (idempotence; the code returns
before rewriting the file). -/
theorem c6_open_batch_idempotent_on_empty (n : Nat) (ok : String → Bool)
    (rows : List RankedTarget)
    (h : rows.filter (fun r => !r.opened) = []) :
    open_next_unopened n ok (some rows) = (.done 0 [], some rows) ∧
    open_next_unopened n ok
        (open_next_unopened n ok (some rows)).2 =
      (.done 0 [], some rows) := by
  have h1 : open_next_unopened n ok (some rows) = (.done 0 [], some rows) := by
    simp [open_next_unopened, h]
  exact ⟨h1, by rw [h1]; simp [open_next_unopened, h]⟩

/-- Witness for C6 on a store whose single row is already opened. -/
theorem c6_open_batch_idempotent_on_empty_witness :
    ([⟨7, "v", 3, 4, 9, 100, 1, 25, "u", true⟩] :
        List RankedTarget).filter (fun r => !r.opened) = [] ∧
    open_next_unopened 20 (fun _ => true)
        (some [⟨7, "v", 3, 4, 9, 100, 1, 25, "u", true⟩]) =
      (.done 0 [], some [⟨7, "v", 3, 4, 9, 100, 1, 25, "u", true⟩]) ∧
    open_next_unopened 20 (fun _ => true)
        (open_next_unopened 20 (fun _ => true)
          (some [⟨7, "v", 3, 4, 9, 100, 1, 25, "u", true⟩])).2 =
      (.done 0 [], some [⟨7, "v", 3, 4, 9, 100, 1, 25, "u", true⟩]) :=
  ⟨by decide,
   (c6_open_batch_idempotent_on_empty 20 (fun _ => true)
     [⟨7, "v", 3, 4, 9, 100, 1, 25, "u", true⟩] (by decide)).1,
   (c6_open_batch_idempotent_on_empty 20 (fun _ => true)
     [⟨7, "v", 3, 4, 9, 100, 1, 25, "u", true⟩] (by decide)).2⟩

/-- Behaviour of the open-batch loop: the batch is the first `n` unopened
rows in persisted order; the count is the number of successful opens among
them, the error list collects the failing URLs in order, the unopened rows
afterwards are exactly the failed batch rows followed by the unopened rows
beyond the batch, and nothing but `opened` flags changes. -/
theorem openBatch_spec (ok : String → Bool) (n : Nat)
    (rows : List RankedTarget) :
    (openBatch ok n rows).1 =
      ((rows.filter (fun r => !r.opened)).take n).countP
        (fun r => ok r.url_to_open) ∧
    (openBatch ok n rows).2.1 =
      (((rows.filter (fun r => !r.opened)).take n).filter
        (fun r => !(ok r.url_to_open))).map (fun r => r.url_to_open) ∧
    (openBatch ok n rows).2.2.filter (fun r => !r.opened) =
      ((rows.filter (fun r => !r.opened)).take n).filter
        (fun r => !(ok r.url_to_open)) ++
      (rows.filter (fun r => !r.opened)).drop n ∧
    (openBatch ok n rows).2.2.map eraseOpened = rows.map eraseOpened := by
  induction rows generalizing n with
  | nil => simp [openBatch]
  | cons r rs ih =>
    cases n with
    | zero => simp [openBatch]
    | succ m =>
      by_cases hr : r.opened
      · have h1 := (ih (m + 1)).1
        have h2 := (ih (m + 1)).2.1
        have h3 := (ih (m + 1)).2.2.1
        have h4 := (ih (m + 1)).2.2.2
        simp [openBatch, hr, h1, h2, h3, h4]
      · by_cases hok : ok r.url_to_open
        · have h1 := (ih m).1
          have h2 := (ih m).2.1
          have h3 := (ih m).2.2.1
          have h4 := (ih m).2.2.2
          simp [openBatch, hr, hok, h1, h2, h3, h4, eraseOpened]
        · have h1 := (ih m).1
          have h2 := (ih m).2.1
          have h3 := (ih m).2.2.1
          have h4 := (ih m).2.2.2
          simp [openBatch, hr, hok, h1, h2, h3, h4]

/-- Claim C2 (general part + scenario): with every open action succeeding,
one invocation selects exactly the unopened rows in persisted order, takes
at most `numToOpen` of them from the front, opens that many and leaves the
rest; on a store with 25 unopened rows and `NUM_TO_OPEN = 20` the first
call opens exactly the first 20, leaving 5 unopened, and a second call
opens the remaining 5. -/
theorem c2_open_batch_takes_front :
    (∀ (n : Nat) (rows : List RankedTarget),
        rows.filter (fun r => !r.opened) ≠ [] →
        ∃ rows2,
          open_next_unopened n (fun _ => true) (some rows) =
            (.done (min n (rows.filter (fun r => !r.opened)).length) [],
             some rows2) ∧
          rows2.filter (fun r => !r.opened) =
            (rows.filter (fun r => !r.opened)).drop n ∧
          rows2.map eraseOpened = rows.map eraseOpened) ∧
    (∀ rows : List RankedTarget,
        (rows.filter (fun r => !r.opened)).length = 25 →
        ∃ rows1 rows2,
          open_next_unopened 20 (fun _ => true) (some rows) =
            (.done 20 [], some rows1) ∧
          rows1.filter (fun r => !r.opened) =
            (rows.filter (fun r => !r.opened)).drop 20 ∧
          (rows1.filter (fun r => !r.opened)).length = 5 ∧
          open_next_unopened 20 (fun _ => true) (some rows1) =
            (.done 5 [], some rows2) ∧
          rows2.filter (fun r => !r.opened) = []) := by
  have key : ∀ (n : Nat) (rows : List RankedTarget),
      rows.filter (fun r => !r.opened) ≠ [] →
      ∃ rows2,
        open_next_unopened n (fun _ => true) (some rows) =
          (.done (min n (rows.filter (fun r => !r.opened)).length) [],
           some rows2) ∧
        rows2.filter (fun r => !r.opened) =
          (rows.filter (fun r => !r.opened)).drop n ∧
        rows2.map eraseOpened = rows.map eraseOpened := by
    intro n rows hne
    have h1 := (openBatch_spec (fun _ => true) n rows).1
    have h2 := (openBatch_spec (fun _ => true) n rows).2.1
    have h3 := (openBatch_spec (fun _ => true) n rows).2.2.1
    have h4 := (openBatch_spec (fun _ => true) n rows).2.2.2
    refine ⟨(openBatch (fun _ => true) n rows).2.2, ?_, ?_, h4⟩
    · have hempty : (rows.filter (fun r => !r.opened)).isEmpty = false := by
        simpa [List.isEmpty_iff] using hne
      simp [open_next_unopened, hempty, h1, h2]
    · simpa using h3
  refine ⟨key, ?_⟩
  intro rows h25
  have hne : rows.filter (fun r => !r.opened) ≠ [] := by
    intro h
    rw [h] at h25
    simp at h25
  obtain ⟨rows1, hcall1, hfilter1, herase1⟩ := key 20 rows hne
  have hlen1 : (rows1.filter (fun r => !r.opened)).length = 5 := by
    rw [hfilter1, List.length_drop, h25]
  have hne1 : rows1.filter (fun r => !r.opened) ≠ [] := by
    intro h
    rw [h] at hlen1
    simp at hlen1
  obtain ⟨rows2, hcall2, hfilter2, _⟩ := key 20 rows1 hne1
  refine ⟨rows1, rows2, ?_, hfilter1, hlen1, ?_, ?_⟩
  · rw [hcall1, h25]
    norm_num
  · rw [hcall2, hlen1]
    norm_num
  · rw [hfilter2, ← List.length_eq_zero, List.length_drop, hlen1]

/-- A sample unopened store row used by concrete witnesses. -/
def sampleRow : RankedTarget :=
  ⟨7, "v", 3, 4, 9, 100, 1, 25, "u", false⟩

/-- Witness for C2: a singleton store, and a 25-row store with the 20+5
scenario. -/
theorem c2_open_batch_takes_front_witness :
    (([sampleRow].filter (fun r => !r.opened) ≠ [] ∧
      ∃ rows2,
        open_next_unopened 1 (fun _ => true) (some [sampleRow]) =
          (.done (min 1 ([sampleRow].filter (fun r => !r.opened)).length) [],
           some rows2) ∧
        rows2.filter (fun r => !r.opened) =
          ([sampleRow].filter (fun r => !r.opened)).drop 1 ∧
        rows2.map eraseOpened = [sampleRow].map eraseOpened)) ∧
    (((List.replicate 25 sampleRow).filter (fun r => !r.opened)).length = 25 ∧
     ∃ rows1 rows2,
       open_next_unopened 20 (fun _ => true)
           (some (List.replicate 25 sampleRow)) =
         (.done 20 [], some rows1) ∧
       rows1.filter (fun r => !r.opened) =
         ((List.replicate 25 sampleRow).filter (fun r => !r.opened)).drop 20 ∧
       (rows1.filter (fun r => !r.opened)).length = 5 ∧
       open_next_unopened 20 (fun _ => true) (some rows1) =
         (.done 5 [], some rows2) ∧
       rows2.filter (fun r => !r.opened) = []) :=
  ⟨⟨by decide, c2_open_batch_takes_front.1 1 [sampleRow] (by decide)⟩,
   ⟨by decide,
    c2_open_batch_takes_front.2 (List.replicate 25 sampleRow) (by decide)⟩⟩

/-- Claim C3: when some open action in the batch fails, the failing rows
keep `opened = false` (staying at the front of the remaining unopened
rows), every other selected row was opened, rows after a failure are still
processed (they contribute to the count and error list), one error is
recorded per failing row, and the full row set — same length, same data up
to `opened` flags — is persisted back. -/
theorem c3_failed_open_isolated (ok : String → Bool) (n : Nat)
    (rows : List RankedTarget)
    (hfail : ∃ r ∈ (rows.filter (fun r => !r.opened)).take n,
        ok r.url_to_open = false) :
    ∃ rows2,
      open_next_unopened n ok (some rows) =
        (.done
          (((rows.filter (fun r => !r.opened)).take n).countP
            (fun r => ok r.url_to_open))
          ((((rows.filter (fun r => !r.opened)).take n).filter
            (fun r => !(ok r.url_to_open))).map (fun r => r.url_to_open)),
         some rows2) ∧
      rows2.filter (fun r => !r.opened) =
        ((rows.filter (fun r => !r.opened)).take n).filter
          (fun r => !(ok r.url_to_open)) ++
        (rows.filter (fun r => !r.opened)).drop n ∧
      rows2.map eraseOpened = rows.map eraseOpened ∧
      rows2.length = rows.length := by
  obtain ⟨r, hrmem, _⟩ := hfail
  have hne : rows.filter (fun r => !r.opened) ≠ [] :=
    List.ne_nil_of_mem (List.take_subset _ _ hrmem)
  have hempty : (rows.filter (fun r => !r.opened)).isEmpty = false := by
    simpa [List.isEmpty_iff] using hne
  have h1 := (openBatch_spec ok n rows).1
  have h2 := (openBatch_spec ok n rows).2.1
  have h3 := (openBatch_spec ok n rows).2.2.1
  have h4 := (openBatch_spec ok n rows).2.2.2
  refine ⟨(openBatch ok n rows).2.2, ?_, h3, h4, ?_⟩
  · simp [open_next_unopened, hempty, h1, h2]
  · have := congrArg List.length h4
    simpa using this

/-- Concrete three-row store for the C3 witness (all unopened). -/
def failRows : List RankedTarget :=
  [⟨1, "v", 1, 0, 2, 10, 1, 1, "a", false⟩,
   ⟨2, "v", 2, 0, 3, 10, 2, 4, "b", false⟩,
   ⟨3, "v", 3, 0, 4, 10, 3, 9, "c", false⟩]

/-- Open action for the C3 witness: fails exactly on URL `"b"`. -/
def failOk (s : String) : Bool :=
  s != "b"

/-- Witness for C3: three unopened rows, the middle open action fails. -/
theorem c3_failed_open_isolated_witness :
    (∃ r ∈ (failRows.filter (fun r => !r.opened)).take 3,
        failOk r.url_to_open = false) ∧
    ∃ rows2,
      open_next_unopened 3 failOk (some failRows) =
        (.done
          (((failRows.filter (fun r => !r.opened)).take 3).countP
            (fun r => failOk r.url_to_open))
          ((((failRows.filter (fun r => !r.opened)).take 3).filter
            (fun r => !(failOk r.url_to_open))).map (fun r => r.url_to_open)),
         some rows2) ∧
      rows2.filter (fun r => !r.opened) =
        ((failRows.filter (fun r => !r.opened)).take 3).filter
          (fun r => !(failOk r.url_to_open)) ++
        (failRows.filter (fun r => !r.opened)).drop 3 ∧
      rows2.map eraseOpened = failRows.map eraseOpened ∧
      rows2.length = failRows.length :=
  ⟨by decide, c3_failed_open_isolated failOk 3 failRows (by decide)⟩

/-! ### Decimal text round-trips (for the store round-trip, claim C8) -/

theorem natCharsAux_zero (fuel : Nat) : natCharsAux fuel 0 = [] := by
  cases fuel <;> simp [natCharsAux]

theorem digitsToNat_append (A : List Char) (c : Char) :
    digitsToNat (A ++ [c]) = 10 * digitsToNat A + (c.toNat - 48) := by
  simp [digitsToNat, List.foldl_append]

theorem isDigitChar_digitCharOf (d : Nat) (h : d < 10) :
    isDigitChar (digitCharOf d) = true := by
  interval_cases d <;> decide

theorem toNat_digitCharOf (d : Nat) (h : d < 10) :
    (digitCharOf d).toNat - 48 = d := by
  interval_cases d <;> decide

theorem natCharsAux_spec :
    ∀ fuel n, 0 < n → n ≤ fuel →
      digitsToNat (natCharsAux fuel n) = n ∧
      (natCharsAux fuel n).all isDigitChar = true ∧
      natCharsAux fuel n ≠ []
  | 0, n, hpos, hle => absurd (Nat.lt_of_lt_of_le hpos hle) (by omega)
  | fuel + 1, n, hpos, hle => by
    have hne : n ≠ 0 := by omega
    by_cases hq : n / 10 = 0
    · have hlt : n < 10 := by omega
      have hmod : n % 10 = n := Nat.mod_eq_of_lt hlt
      have hd1 := toNat_digitCharOf (n % 10) (Nat.mod_lt n (by omega))
      have hd2 := isDigitChar_digitCharOf (n % 10) (Nat.mod_lt n (by omega))
      rw [hmod] at hd1 hd2
      refine ⟨?_, ?_, ?_⟩ <;>
        simp [natCharsAux, hne, hq, natCharsAux_zero, digitsToNat, hmod,
          hd1, hd2]
    · have hdiv : n / 10 < n := Nat.div_lt_self hpos (by omega)
      have ih := natCharsAux_spec fuel (n / 10) (by omega) (by omega)
      refine ⟨?_, ?_, ?_⟩
      · rw [show natCharsAux (fuel + 1) n =
          natCharsAux fuel (n / 10) ++ [digitCharOf (n % 10)] by
            simp [natCharsAux, hne]]
        rw [digitsToNat_append, ih.1,
          toNat_digitCharOf (n % 10) (Nat.mod_lt n (by omega))]
        omega
      · simp [natCharsAux, hne, ih.2.1,
          isDigitChar_digitCharOf (n % 10) (Nat.mod_lt n (by omega))]
      · simp [natCharsAux, hne]

theorem natChars_spec (n : Nat) :
    digitsToNat (natChars n) = n ∧ isdigit (natChars n) = true := by
  by_cases h : n = 0
  · subst h
    exact ⟨by decide, by decide⟩
  · have := natCharsAux_spec n n (by omega) (by omega)
    constructor
    · simpa [natChars, h] using this.1
    · simp [natChars, h, isdigit, this.2.1, List.isEmpty_iff, this.2.2]

theorem parseNatChars_natChars (n : Nat) :
    parseNatChars (natChars n) = some n := by
  simp [parseNatChars, (natChars_spec n).2, (natChars_spec n).1]

theorem natChars_head_digit (n : Nat) (c : Char)
    (h : (natChars n).head? = some c) : isDigitChar c = true := by
  have hall := (natChars_spec n).2
  have hmem : c ∈ natChars n := by
    cases hnc : natChars n with
    | nil => simp [hnc] at h
    | cons a l =>
      simp [hnc] at h
      simp [hnc, h]
  simp [isdigit, List.all_eq_true] at hall
  exact hall.2 c hmem

theorem parseIntChars_intChars (i : Int) :
    parseIntChars (intChars i) = some i := by
  by_cases hneg : i < 0
  · have h1 : intChars i = '-' :: natChars i.natAbs := by
      simp [intChars, hneg]
    have h2 : parseIntChars ('-' :: natChars i.natAbs) =
        (parseNatChars (natChars i.natAbs)).map (fun m => -(m : Int)) := by
      simp [parseIntChars]
    rw [h1, h2, parseNatChars_natChars]
    simp
    rw [abs_of_neg hneg, neg_neg]
  · have hhead : ∀ c, (natChars i.natAbs).head? = some c → ¬(c = '-') := by
      intro c hc hcon
      have := natChars_head_digit i.natAbs c hc
      rw [hcon] at this
      simp [isDigitChar] at this
    have hne : (natChars i.natAbs).head? ≠ some '-' := by
      cases hh : (natChars i.natAbs).head? with
      | none => simp
      | some c =>
        have := hhead c hh
        simp [this]
    simp [intChars, hneg, parseIntChars, hne, parseNatChars_natChars]
    omega

theorem parseNatStr_natToString (n : Nat) :
    parseNatStr (natToString n) = some n :=
  parseNatChars_natChars n

theorem parseIntStr_intToString (i : Int) :
    parseIntStr (intToString i) = some i :=
  parseIntChars_intChars i

theorem parseBoolStr_boolToCsv (b : Bool) :
    parseBoolStr (boolToCsv b) = some b := by
  cases b <;> decide

theorem parseRow_serializeRow (r : RankedTarget) :
    parseRow (serializeRow r) = some r := by
  simp [parseRow, serializeRow, parseNatStr_natToString, parseIntStr_intToString,
    parseBoolStr_boolToCsv]

/-- Claim C8: persisting a RankedTarget set to the store and loading it
back yields the same set, all fields preserved, with the `opened` flag read
back as a faithful boolean. -/
theorem c8_store_round_trip (rows : List RankedTarget) :
    loadStore (persistStore rows) = some rows := by
  induction rows with
  | nil => rfl
  | cons r rs ih =>
    simp only [persistStore, List.map_cons] at *
    simp [loadStore, parseRow_serializeRow, ih]

/-! ### Config parsing lemmas (claims C9, C10) -/

theorem splitFirst_eq_none (sep : Char) (cs : List Char) :
    splitFirst sep cs = none ↔ sep ∉ cs := by
  induction cs with
  | nil => simp [splitFirst]
  | cons c cs ih =>
    by_cases h : c = sep
    · subst h
      simp [splitFirst]
    · have hsym : ¬(sep = c) := fun hh => h hh.symm
      simp [splitFirst, h, ih, hsym]

theorem splitFirst_eq_some (sep : Char) :
    ∀ cs a b, splitFirst sep cs = some (a, b) →
      cs = a ++ sep :: b ∧ sep ∉ a
  | [], a, b => by simp [splitFirst]
  | c :: cs, a, b => by
    by_cases h : c = sep
    · subst h
      simp only [splitFirst, if_pos rfl, Option.some_inj, Prod.mk.injEq]
      rintro ⟨rfl, rfl⟩
      simp
    · intro hsp
      simp only [splitFirst, if_neg h, Option.map_eq_some'] at hsp
      obtain ⟨⟨a2, b2⟩, hp, heq⟩ := hsp
      obtain ⟨hcs, hmem⟩ := splitFirst_eq_some sep cs a2 b2 hp
      simp only [Prod.mk.injEq] at heq
      obtain ⟨ha, hb⟩ := heq
      subst ha
      subst hb
      constructor
      · simp [hcs]
      · intro hm
        rcases List.mem_cons.mp hm with h1 | h1
        · exact h h1.symm
        · exact hmem h1

theorem splitFirst_decomp (sep : Char) :
    ∀ a b, sep ∉ a → splitFirst sep (a ++ sep :: b) = some (a, b)
  | [], b, _ => by simp [splitFirst]
  | c :: a, b, h => by
    have hc : ¬(c = sep) := by
      intro hh
      exact h (by simp [hh])
    have ih := splitFirst_decomp sep a b (fun hm => h (List.mem_cons_of_mem _ hm))
    simp [splitFirst, hc, ih]

theorem mem_stripChars {x : Char} {cs : List Char}
    (h : x ∈ stripChars cs) : x ∈ cs := by
  simp only [stripChars, List.mem_reverse] at h
  have h1 := (List.dropWhile_sublist isSpaceChar).mem h
  rw [List.mem_reverse] at h1
  exact (List.dropWhile_sublist isSpaceChar).mem h1

/-- Claim C9: per-line behaviour of the config loader.  Lines that strip to
empty, strip to a `#` comment, or contain no `=` are silently skipped;
otherwise the stripped line is split at its first `=`, key and value are
whitespace-trimmed, and the value is coerced to an integer when all decimal
digits, else to the (exact) floating value when all digits after deleting
one dot, else kept as text. -/
theorem c9_config_line_rules (s : String) :
    (stripChars s.data = [] → parseLine s = none) ∧
    ((stripChars s.data).head? = some '#' → parseLine s = none) ∧
    ('=' ∉ s.data → parseLine s = none) ∧
    (∀ pre post, stripChars s.data = pre ++ '=' :: post → '=' ∉ pre →
      (stripChars s.data).head? ≠ some '#' →
      parseLine s = some (⟨stripChars pre⟩, coerceValue (stripChars post))) ∧
    (∀ cs : List Char,
      (isdigit cs = true → coerceValue cs = .intVal (digitsToNat cs)) ∧
      (isdigit cs = false → isdigit (removeFirstDot cs) = true →
        coerceValue cs = .floatVal (floatValOf cs)) ∧
      (isdigit cs = false → isdigit (removeFirstDot cs) = false →
        coerceValue cs = .strVal ⟨cs⟩)) := by
  refine ⟨?_, ?_, ?_, ?_, ?_⟩
  · intro h
    simp [parseLine, h]
  · intro h
    have hne : stripChars s.data ≠ [] := by
      intro hh
      rw [hh] at h
      simp at h
    simp [parseLine, List.isEmpty_iff, hne, h]
  · intro h
    have hmem : '=' ∉ stripChars s.data := fun hm => h (mem_stripChars hm)
    have hn : splitFirst '=' (stripChars s.data) = none :=
      (splitFirst_eq_none _ _).mpr hmem
    by_cases h1 : stripChars s.data = []
    · simp [parseLine, h1]
    · by_cases h2 : (stripChars s.data).head? = some '#'
      · simp [parseLine, List.isEmpty_iff, h1, h2]
      · simp [parseLine, List.isEmpty_iff, h1, h2, hn]
  · intro pre post hdec hpre hhash
    have hne : stripChars s.data ≠ [] := by
      rw [hdec]
      simp
    have hsplit : splitFirst '=' (stripChars s.data) = some (pre, post) := by
      rw [hdec]
      exact splitFirst_decomp '=' pre post hpre
    simp [parseLine, List.isEmpty_iff, hne, hhash, hsplit]
  · intro cs
    refine ⟨?_, ?_, ?_⟩
    · intro h
      simp [coerceValue, h]
    · intro h1 h2
      simp [coerceValue, h1, h2]
    · intro h1 h2
      simp [coerceValue, h1, h2]

/-- Witness for C9: a comment line, a blank line, a line without `=`, an
integer line, a float line and a text line. -/
theorem c9_config_line_rules_witness :
    (stripChars (String.data "   ") = [] ∧ parseLine "   " = none) ∧
    ((stripChars (String.data "  # CSV_PATH=x")).head? = some '#' ∧
      parseLine "  # CSV_PATH=x" = none) ∧
    ('=' ∉ String.data "BROWSER firefox" ∧ parseLine "BROWSER firefox" = none) ∧
    (stripChars (String.data " NUM_TO_OPEN = 20 ") =
        (String.data "NUM_TO_OPEN ") ++ '=' :: (String.data " 20") ∧
      '=' ∉ String.data "NUM_TO_OPEN " ∧
      (stripChars (String.data " NUM_TO_OPEN = 20 ")).head? ≠ some '#' ∧
      parseLine " NUM_TO_OPEN = 20 " =
        some (⟨stripChars (String.data "NUM_TO_OPEN ")⟩,
          coerceValue (stripChars (String.data " 20")))) ∧
    (isdigit (String.data "20") = true ∧
      coerceValue (String.data "20") = .intVal (digitsToNat (String.data "20"))) ∧
    (isdigit (String.data "0.1") = false ∧
      isdigit (removeFirstDot (String.data "0.1")) = true ∧
      coerceValue (String.data "0.1") = .floatVal (floatValOf (String.data "0.1"))) ∧
    (isdigit (String.data "firefox") = false ∧
      isdigit (removeFirstDot (String.data "firefox")) = false ∧
      coerceValue (String.data "firefox") = .strVal ⟨String.data "firefox"⟩) :=
  ⟨⟨by decide, (c9_config_line_rules "   ").1 (by decide)⟩,
   ⟨by decide, (c9_config_line_rules "  # CSV_PATH=x").2.1 (by decide)⟩,
   ⟨by decide, (c9_config_line_rules "BROWSER firefox").2.2.1 (by decide)⟩,
   ⟨by decide, by decide, by decide,
    (c9_config_line_rules " NUM_TO_OPEN = 20 ").2.2.2.1
      (String.data "NUM_TO_OPEN ") (String.data " 20")
      (by decide) (by decide) (by decide)⟩,
   ⟨by decide, ((c9_config_line_rules "x").2.2.2.2 (String.data "20")).1
      (by decide)⟩,
   ⟨by decide, by decide,
    ((c9_config_line_rules "x").2.2.2.2 (String.data "0.1")).2.1
      (by decide) (by decide)⟩,
   ⟨by decide, by decide,
    ((c9_config_line_rules "x").2.2.2.2 (String.data "firefox")).2.2
      (by decide) (by decide)⟩⟩

/-- The loaded configuration maps `k` to the value of the last parseable
line binding `k` (dict assignment semantics of `config[key] = value`). -/
theorem load_config_last_binding (lines : List String) (k : String) :
    load_config lines k =
      (((lines.filterMap parseLine).filter
        (fun kv => decide (kv.1 = k))).getLast?).map (fun kv => kv.2) := by
  induction lines using List.reverseRecOn with
  | nil => rfl
  | append_singleton xs x ih =>
    have hstep : load_config (xs ++ [x]) k =
        (match parseLine x with
         | some kv => fun q => if q = kv.1 then some kv.2 else load_config xs q
         | none => load_config xs) k := by
      simp only [load_config, List.foldl_append, List.foldl_cons, List.foldl_nil]
    rw [hstep]
    cases hx : parseLine x with
    | none =>
      simp only [ih]
      simp [List.filterMap_append, hx]
    | some kv =>
      by_cases hk : k = kv.1
      · simp only [if_pos hk]
        rw [List.filterMap_append, List.filter_append]
        have h1 : (List.filterMap parseLine [x]).filter
            (fun kv => decide (kv.1 = k)) = [kv] := by
          simp [hx, hk.symm]
        rw [h1, List.getLast?_concat]
        rfl
      · simp only [if_neg hk]
        rw [ih, List.filterMap_append, List.filter_append]
        have h1 : (List.filterMap parseLine [x]).filter
            (fun kv => decide (kv.1 = k)) = [] := by
          simp [hx]
          intro hcon
          exact hk hcon.symm
        rw [h1, List.append_nil]

/-- Claim C10: when the same key occurs on several parseable lines, the
loaded configuration holds the value of the last such line — any two
parseable bindings of `k`, with no later line binding `k`, resolve to the
later value. -/
theorem c10_duplicate_key_last_wins (pre mid post : List String)
    (l1 l2 k : String) (v1 v2 : ConfigValue)
    (h1 : parseLine l1 = some (k, v1)) (h2 : parseLine l2 = some (k, v2))
    (h3 : ∀ l ∈ post, (parseLine l).map (fun kv => kv.1) ≠ some k) :
    load_config (pre ++ l1 :: mid ++ l2 :: post) k = some v2 := by
  rw [load_config_last_binding]
  have hpost : (post.filterMap parseLine).filter
      (fun kv => decide (kv.1 = k)) = [] := by
    rw [List.filter_eq_nil_iff]
    intro kv hkv
    obtain ⟨l, hl, hpl⟩ := List.mem_filterMap.mp hkv
    have hne := h3 l hl
    rw [hpl] at hne
    simp only [Option.map_some'] at hne
    simp only [decide_eq_true_eq]
    intro hcon
    exact hne (by rw [hcon])
  have hshape : ((pre ++ l1 :: mid ++ l2 :: post).filterMap parseLine).filter
      (fun kv => decide (kv.1 = k)) =
      ((pre.filterMap parseLine).filter (fun kv => decide (kv.1 = k)) ++
       (k, v1) :: (mid.filterMap parseLine).filter
         (fun kv => decide (kv.1 = k))) ++ [(k, v2)] := by
    simp [List.filterMap_append, List.filterMap_cons, h1, h2,
      List.filter_append, hpost]
  rw [hshape, List.getLast?_concat]
  rfl

/-- Witness for C10: the key `A` bound twice, with an unrelated line after
the second binding. -/
theorem c10_duplicate_key_last_wins_witness :
    parseLine "A=1" = some ("A", .intVal 1) ∧
    parseLine "A=2" = some ("A", .intVal 2) ∧
    (∀ l ∈ ["B=3"], (parseLine l).map (fun kv => kv.1) ≠ some "A") ∧
    load_config (["# c"] ++ "A=1" :: [""] ++ "A=2" :: ["B=3"]) "A" =
      some (.intVal 2) :=
  ⟨by decide, by decide, by decide,
   c10_duplicate_key_last_wins ["# c"] [""] ["B=3"] "A=1" "A=2" "A"
     (.intVal 1) (.intVal 2) (by decide) (by decide) (by decide)⟩

/-! ### Ranking lemmas (claims C1, C7) -/

theorem argminD_eq_none (f : VillageRecord → Int) (l : List VillageRecord) :
    argminD f l = none ↔ l = [] := by
  cases l with
  | nil => simp [argminD]
  | cons r rs =>
    simp only [argminD]
    cases argminD f rs with
    | none => simp
    | some m =>
      by_cases h : f r ≤ f m <;> simp [h]

theorem argminD_spec (f : VillageRecord → Int) :
    ∀ (l : List VillageRecord) (m : VillageRecord), argminD f l = some m →
      (∃ l1 l2, l = l1 ++ m :: l2 ∧ ∀ a ∈ l1, f m < f a) ∧
      ∀ a ∈ l, f m ≤ f a
  | [], m => by simp [argminD]
  | r :: rs, m => by
    intro h
    cases hrs : argminD f rs with
    | none =>
      have hnil : rs = [] := (argminD_eq_none f rs).mp hrs
      subst hnil
      simp only [argminD] at h
      cases h
      exact ⟨⟨[], [], rfl, by simp⟩, by simp⟩
    | some m0 =>
      have ih := argminD_spec f rs m0 hrs
      simp only [argminD, hrs] at h
      by_cases hf : f r ≤ f m0
      · rw [if_pos hf] at h
        cases h
        refine ⟨⟨[], rs, rfl, by simp⟩, ?_⟩
        intro a ha
        rcases List.mem_cons.mp ha with rfl | ha
        · exact le_refl _
        · exact le_trans hf (ih.2 a ha)
      · rw [if_neg hf] at h
        cases h
        obtain ⟨l1, l2, hdec, hlt⟩ := ih.1
        refine ⟨⟨r :: l1, l2, by rw [hdec, List.cons_append], ?_⟩, ?_⟩
        · intro a ha
          rcases List.mem_cons.mp ha with rfl | ha
          · omega
          · exact hlt a ha
        · intro a ha
          rcases List.mem_cons.mp ha with rfl | ha
          · omega
          · exact ih.2 a ha

theorem selectClosest_sound (xOwn yOwn : Int) (owned : List VillageRecord)
    (c : VillageRecord) (hc : c ∈ selectClosest xOwn yOwn owned) :
    c ∈ owned ∧
    (∀ r ∈ owned, r.player = c.player →
      distance2 xOwn yOwn c ≤ distance2 xOwn yOwn r) ∧
    ∃ l1 l2,
      owned.filter (fun r => decide (r.player = c.player)) = l1 ++ c :: l2 ∧
      ∀ a ∈ l1, distance2 xOwn yOwn c < distance2 xOwn yOwn a := by
  obtain ⟨p, _, hmin⟩ := List.mem_filterMap.mp hc
  have hspec := argminD_spec (distance2 xOwn yOwn) _ c hmin
  obtain ⟨l1, l2, hdec, hlt⟩ := hspec.1
  have hcmem : c ∈ owned.filter (fun r => decide (r.player = p)) := by
    rw [hdec]
    exact List.mem_append_right _ (List.mem_cons_self c l2)
  have hcp : c.player = p := by
    have := (List.mem_filter.mp hcmem).2
    simpa using this
  subst hcp
  refine ⟨(List.mem_filter.mp hcmem).1, ?_, l1, l2, hdec, hlt⟩
  intro r hr hpr
  exact hspec.2 r (List.mem_filter.mpr ⟨hr, by simp [hpr]⟩)

theorem selectClosest_players_aux {L : List Nat}
    (g : Nat → Option VillageRecord)
    (h : ∀ p ∈ L, ∃ m, g p = some m ∧ m.player = p) :
    (L.filterMap g).map (fun r => r.player) = L := by
  induction L with
  | nil => rfl
  | cons p L ih =>
    obtain ⟨m, hg, hp⟩ := h p (List.mem_cons_self p L)
    rw [List.filterMap_cons, hg, List.map_cons, hp,
      ih (fun q hq => h q (List.mem_cons_of_mem p hq))]

theorem selectClosest_players (xOwn yOwn : Int) (owned : List VillageRecord) :
    (selectClosest xOwn yOwn owned).map (fun r => r.player) =
      List.insertionSort (· ≤ ·) ((owned.map (fun r => r.player)).dedup) := by
  apply selectClosest_players_aux
  intro p hp
  have hp2 : p ∈ (owned.map (fun r => r.player)).dedup :=
    (List.perm_insertionSort _ _).mem_iff.mp hp
  have hp3 : p ∈ owned.map (fun r => r.player) := List.mem_dedup.mp hp2
  obtain ⟨r, hr, hrp⟩ := List.mem_map.mp hp3
  have hne : owned.filter (fun r => decide (r.player = p)) ≠ [] := by
    intro hnil
    have : r ∈ owned.filter (fun r => decide (r.player = p)) :=
      List.mem_filter.mpr ⟨hr, by simp [hrp]⟩
    rw [hnil] at this
    simp at this
  cases hmin : argminD (distance2 xOwn yOwn)
      (owned.filter (fun r => decide (r.player = p))) with
  | none => exact absurd ((argminD_eq_none _ _).mp hmin) hne
  | some m =>
    refine ⟨m, rfl, ?_⟩
    have hspec := argminD_spec (distance2 xOwn yOwn) _ m hmin
    obtain ⟨l1, l2, hdec, _⟩ := hspec.1
    have hmmem : m ∈ owned.filter (fun r => decide (r.player = p)) := by
      rw [hdec]
      exact List.mem_append_right _ (List.mem_cons_self m l2)
    have := (List.mem_filter.mp hmmem).2
    simpa using this

theorem mem_fetch_rank (country countryUrl : String) (world : Nat)
    (xOwn yOwn : Int) (feed : List VillageRecord) (t : RankedTarget) :
    t ∈ fetch_rank country countryUrl world xOwn yOwn feed ↔
      ∃ c, c ∈ selectClosest xOwn yOwn
          (feed.filter (fun r => decide (r.player ≠ 0))) ∧
        t = mkTarget country countryUrl world xOwn yOwn c := by
  simp only [fetch_rank, List.mem_map]
  constructor
  · rintro ⟨c, hc, rfl⟩
    exact ⟨c, (List.perm_insertionSort _ _).mem_iff.mp hc, rfl⟩
  · rintro ⟨c, hc, rfl⟩
    exact ⟨c, (List.perm_insertionSort _ _).mem_iff.mpr hc, rfl⟩

/-- Claim C1: the ranked output has exactly one row per distinct nonzero
`player` of the feed (barbarian rows with `player = 0` are dropped), each
row's distance is minimal among that player's feed rows, and among
equal-minimum rows of one player the first in feed iteration order is the
one chosen. -/
theorem c1_one_row_per_player_minimal (country countryUrl : String)
    (world : Nat) (xOwn yOwn : Int) (feed : List VillageRecord) :
    ((fetch_rank country countryUrl world xOwn yOwn feed).map
      (fun t => t.player)).Nodup ∧
    (∀ p, p ∈ (fetch_rank country countryUrl world xOwn yOwn feed).map
        (fun t => t.player) ↔
      (p ≠ 0 ∧ p ∈ feed.map (fun r => r.player))) ∧
    (∀ t ∈ fetch_rank country countryUrl world xOwn yOwn feed,
      ∀ r ∈ feed, r.player = t.player →
        t.dist2 ≤ distance2 xOwn yOwn r) ∧
    (∀ t ∈ fetch_rank country countryUrl world xOwn yOwn feed,
      ∃ l1 l2 src,
        (feed.filter (fun r => decide (r.player ≠ 0))).filter
          (fun r => decide (r.player = t.player)) = l1 ++ src :: l2 ∧
        t = mkTarget country countryUrl world xOwn yOwn src ∧
        ∀ a ∈ l1, t.dist2 < distance2 xOwn yOwn a) := by
  have hmap : List.Perm
      ((fetch_rank country countryUrl world xOwn yOwn feed).map
        (fun t => t.player))
      ((selectClosest xOwn yOwn
        (feed.filter (fun r => decide (r.player ≠ 0)))).map
        (fun r => r.player)) := by
    simp only [fetch_rank, List.map_map]
    exact (List.perm_insertionSort _ _).map _
  have hSP := selectClosest_players xOwn yOwn
    (feed.filter (fun r => decide (r.player ≠ 0)))
  have hSPnodup :
      (List.insertionSort (· ≤ ·)
        (((feed.filter (fun r => decide (r.player ≠ 0))).map
          (fun r => r.player)).dedup)).Nodup :=
    ((List.perm_insertionSort _ _).nodup_iff).mpr (List.nodup_dedup _)
  refine ⟨?_, ?_, ?_, ?_⟩
  · exact (hmap.nodup_iff).mpr (hSP ▸ hSPnodup)
  · intro p
    rw [hmap.mem_iff, hSP, (List.perm_insertionSort _ _).mem_iff,
      List.mem_dedup]
    simp only [List.mem_map, List.mem_filter, decide_eq_true_eq]
    constructor
    · rintro ⟨r, ⟨hr, hne⟩, rfl⟩
      exact ⟨hne, r, hr, rfl⟩
    · rintro ⟨hne, r, hr, rfl⟩
      exact ⟨r, ⟨hr, hne⟩, rfl⟩
  · intro t ht r hr hpr
    obtain ⟨c, hcmem, rfl⟩ :=
      (mem_fetch_rank country countryUrl world xOwn yOwn feed t).mp ht
    have hsound := selectClosest_sound xOwn yOwn _ c hcmem
    have hrp : r.player = c.player := by
      simpa [mkTarget] using hpr
    have hcp0 : c.player ≠ 0 := by
      have := (List.mem_filter.mp hsound.1).2
      simpa using this
    have hrowned : r ∈ feed.filter (fun r => decide (r.player ≠ 0)) :=
      List.mem_filter.mpr ⟨hr, by simp [hrp, hcp0]⟩
    exact hsound.2.1 r hrowned hrp
  · intro t ht
    obtain ⟨c, hcmem, rfl⟩ :=
      (mem_fetch_rank country countryUrl world xOwn yOwn feed t).mp ht
    have hsound := selectClosest_sound xOwn yOwn _ c hcmem
    obtain ⟨l1, l2, hdec, hlt⟩ := hsound.2.2
    exact ⟨l1, l2, c, hdec, rfl, hlt⟩

/-- Concrete census feed for the C1 witness: two owned villages of players
9 and 5 and one barbarian village. -/
def c1feed : List VillageRecord :=
  [⟨1, "a", 3, 4, 9, 10, 1⟩, ⟨2, "b", 1, 1, 5, 10, 2⟩,
   ⟨3, "c", 0, 1, 0, 10, 3⟩]

/-- Witness for C1 at the concrete feed `c1feed` and player 5's row. -/
theorem c1_one_row_per_player_minimal_witness :
    (mkTarget "de" "ds" 1 0 0 ⟨2, "b", 1, 1, 5, 10, 2⟩ ∈
      fetch_rank "de" "ds" 1 0 0 c1feed) ∧
    ((⟨2, "b", 1, 1, 5, 10, 2⟩ : VillageRecord) ∈ c1feed) ∧
    ((⟨2, "b", 1, 1, 5, 10, 2⟩ : VillageRecord).player =
      (mkTarget "de" "ds" 1 0 0 ⟨2, "b", 1, 1, 5, 10, 2⟩).player) ∧
    ((mkTarget "de" "ds" 1 0 0 ⟨2, "b", 1, 1, 5, 10, 2⟩).dist2 ≤
      distance2 0 0 ⟨2, "b", 1, 1, 5, 10, 2⟩) ∧
    (∃ l1 l2 src,
      (c1feed.filter (fun r => decide (r.player ≠ 0))).filter
        (fun r => decide (r.player =
          (mkTarget "de" "ds" 1 0 0 ⟨2, "b", 1, 1, 5, 10, 2⟩).player)) =
        l1 ++ src :: l2 ∧
      mkTarget "de" "ds" 1 0 0 ⟨2, "b", 1, 1, 5, 10, 2⟩ =
        mkTarget "de" "ds" 1 0 0 src ∧
      ∀ a ∈ l1,
        (mkTarget "de" "ds" 1 0 0 ⟨2, "b", 1, 1, 5, 10, 2⟩).dist2 <
          distance2 0 0 a) :=
  ⟨by decide, by decide, by decide,
   (c1_one_row_per_player_minimal "de" "ds" 1 0 0 c1feed).2.2.1 _ (by decide)
     _ (by decide) (by decide),
   (c1_one_row_per_player_minimal "de" "ds" 1 0 0 c1feed).2.2.2 _ (by decide)⟩

/-- Claim C7: the ranked output is ordered non-decreasing by distance
(equivalently by the squared distance `dist2`). -/
theorem c7_output_sorted_by_distance (country countryUrl : String)
    (world : Nat) (xOwn yOwn : Int) (feed : List VillageRecord) :
    (fetch_rank country countryUrl world xOwn yOwn feed).Pairwise
      (fun a b => a.dist2 ≤ b.dist2) := by
  letI : IsTotal VillageRecord
      (fun a b => distance2 xOwn yOwn a ≤ distance2 xOwn yOwn b) :=
    ⟨fun a b => le_total _ _⟩
  letI : IsTrans VillageRecord
      (fun a b => distance2 xOwn yOwn a ≤ distance2 xOwn yOwn b) :=
    ⟨fun _ _ _ hab hbc => le_trans hab hbc⟩
  have hs := List.sorted_insertionSort
    (fun a b => distance2 xOwn yOwn a ≤ distance2 xOwn yOwn b)
    (selectClosest xOwn yOwn (feed.filter (fun r => decide (r.player ≠ 0))))
  simp only [fetch_rank]
  rw [List.pairwise_map]
  exact hs
